import Mathlib

/-!
# Verification of the totp-web one-time-password engine

A shallow embedding in Lean of the core functions of the `totp-web`
repository: the Base32 secret codecs, the counter encoder, the HOTP/TOTP
derivation, the verification window loop, the rate limiter and the
configuration validator.  Byte strings are modelled as `List Nat` (each
entry a byte value), JavaScript strings as `List Char`, and wall-clock
time as an explicit `Nat` parameter (milliseconds).  The HMAC primitive
is an external collaborator (`crypto.subtle`), modelled as an explicit
function parameter from key bytes and message bytes to digest bytes.
-/

namespace TotpWeb

/-! ## Bits

The `totp.ts` Base32 codec works on binary strings built with
`toString(2).padStart(w, "0")` and read back with `parseInt(bits, 2)`.
We model those binary strings as big-endian `List Bool`. -/

/-- Big-endian bit list of width `w` for `n` (most significant first),
modelling `n.toString(2).padStart(w, "0")` for `n < 2 ^ w`. -/
def natToBits (w n : Nat) : List Bool :=
  (List.range w).reverse.map (fun i => n.testBit i)

/-- One step of `parseInt(_, 2)`: shift the accumulator and add the bit. -/
def bitStep (a : Nat) (b : Bool) : Nat := 2 * a + (if b then 1 else 0)

/-- Value of a big-endian bit list, modelling `parseInt(bits, 2)`. -/
def bitsToNat (bs : List Bool) : Nat := bs.foldl bitStep 0

theorem natToBits_succ (w n : Nat) :
    natToBits (w + 1) n = n.testBit w :: natToBits w n := by
  simp [natToBits, List.range_succ]

@[simp] theorem natToBits_length (w n : Nat) : (natToBits w n).length = w := by
  simp [natToBits]

theorem foldl_bitStep (a : Nat) (bs : List Bool) :
    bs.foldl bitStep a = a * 2 ^ bs.length + bitsToNat bs := by
  induction bs generalizing a with
  | nil => simp [bitsToNat]
  | cons b bs ih =>
    simp only [List.foldl_cons, bitsToNat] at *
    rw [ih (bitStep a b), ih (bitStep 0 b)]
    cases b <;> simp [bitStep, List.length_cons, pow_succ] <;> ring

theorem bitsToNat_cons (b : Bool) (bs : List Bool) :
    bitsToNat (b :: bs) = (if b then 1 else 0) * 2 ^ bs.length + bitsToNat bs := by
  have h := foldl_bitStep (bitStep 0 b) bs
  simp only [bitsToNat, List.foldl_cons]
  rw [h]
  cases b <;> simp [bitStep, bitsToNat]

theorem bitsToNat_lt (bs : List Bool) : bitsToNat bs < 2 ^ bs.length := by
  induction bs with
  | nil => simp [bitsToNat]
  | cons b bs ih =>
    rw [bitsToNat_cons]
    cases b <;> simp [List.length_cons, pow_succ] <;> omega

theorem bitsToNat_natToBits (w n : Nat) : bitsToNat (natToBits w n) = n % 2 ^ w := by
  induction w with
  | zero => simp [natToBits, bitsToNat, Nat.mod_one]
  | succ w ih =>
    rw [natToBits_succ, bitsToNat_cons, natToBits_length, ih]
    have h2 : 2 ^ (w + 1) = 2 ^ w * 2 := by ring
    rw [h2, Nat.mod_mul, Nat.testBit_to_div_mod]
    rcases Nat.mod_two_eq_zero_or_one (n / 2 ^ w) with h | h <;> simp [h] <;> omega

theorem natToBits_mod (w n : Nat) : natToBits w (n % 2 ^ w) = natToBits w n := by
  unfold natToBits
  apply List.map_congr_left
  intro i hi
  have hi2 : i < w := by
    have := List.mem_reverse.mp hi
    exact List.mem_range.mp this
  rw [Nat.testBit_mod_two_pow]
  simp [hi2]

theorem natToBits_bitsToNat (bs : List Bool) :
    natToBits bs.length (bitsToNat bs) = bs := by
  induction bs with
  | nil => simp [natToBits, bitsToNat]
  | cons b bs ih =>
    have hlt := bitsToNat_lt bs
    have hP : 0 < 2 ^ bs.length := Nat.pos_pow_of_pos _ (by omega)
    rw [List.length_cons, natToBits_succ, bitsToNat_cons]
    have hdiv : ((if b then 1 else 0) * 2 ^ bs.length + bitsToNat bs) / 2 ^ bs.length
        = (if b then 1 else 0) := by
      rw [mul_comm, Nat.mul_add_div hP, Nat.div_eq_of_lt hlt, Nat.add_zero]
    have hmod : ((if b then 1 else 0) * 2 ^ bs.length + bitsToNat bs) % 2 ^ bs.length
        = bitsToNat bs := by
      rw [mul_comm, Nat.mul_add_mod, Nat.mod_eq_of_lt hlt]
    have hhead :
        ((if b then 1 else 0) * 2 ^ bs.length + bitsToNat bs).testBit bs.length = b := by
      rw [Nat.testBit_to_div_mod, hdiv]
      cases b <;> simp
    have htail :
        natToBits bs.length ((if b then 1 else 0) * 2 ^ bs.length + bitsToNat bs) = bs := by
      rw [← natToBits_mod, hmod, ih]
    rw [hhead, htail]

/-! ## Chunking

`bytesToBase32` walks the bit string in slices of 5, keeping only full
slices; `base32ToBytes` walks it in slices of 8 and keeps a final
partial slice as well (`Math.ceil(bits.length / 8)` byte cells, each
filled with `parseInt(bits.slice(i, i + 8), 2)`). -/

/-- Slices of length 5, dropping a trailing partial slice (the
`chunk.length === 5` guard in `bytesToBase32`). -/
def chunks5 (l : List Bool) : List (List Bool) :=
  match l with
  | [] => []
  | b :: bs =>
    if 5 ≤ bs.length + 1 then (b :: bs).take 5 :: chunks5 ((b :: bs).drop 5) else []
termination_by l.length
decreasing_by simp only [List.length_drop, List.length_cons]; omega

/-- Slices of length 8, keeping a trailing partial slice (the
`Math.ceil` sizing in `base32ToBytes`). -/
def chunks8 (l : List Bool) : List (List Bool) :=
  match l with
  | [] => []
  | b :: bs => (b :: bs).take 8 :: chunks8 ((b :: bs).drop 8)
termination_by l.length
decreasing_by simp only [List.length_drop, List.length_cons]; omega

theorem chunks5_nil : chunks5 [] = [] := by simp [chunks5]

theorem chunks8_nil : chunks8 [] = [] := by simp [chunks8]

theorem chunks5_append_five (xs ys : List Bool) (h : xs.length = 5) :
    chunks5 (xs ++ ys) = xs :: chunks5 ys := by
  cases xs with
  | nil => simp at h
  | cons b bs =>
    rw [List.cons_append, chunks5]
    have hlen : 5 ≤ (bs ++ ys).length + 1 := by
      simp only [List.length_append]
      simp only [List.length_cons] at h
      omega
    rw [if_pos hlen]
    have ht : (b :: (bs ++ ys)).take 5 = b :: bs := by
      rw [← List.cons_append, ← h, List.take_left]
    have hd : (b :: (bs ++ ys)).drop 5 = ys := by
      rw [← List.cons_append, ← h, List.drop_left]
    rw [ht, hd]

theorem chunks8_append_eight (xs ys : List Bool) (h : xs.length = 8) :
    chunks8 (xs ++ ys) = xs :: chunks8 ys := by
  cases xs with
  | nil => simp at h
  | cons b bs =>
    rw [List.cons_append, chunks8]
    have ht : (b :: (bs ++ ys)).take 8 = b :: bs := by
      rw [← List.cons_append, ← h, List.take_left]
    have hd : (b :: (bs ++ ys)).drop 8 = ys := by
      rw [← List.cons_append, ← h, List.drop_left]
    rw [ht, hd]

theorem chunks5_join (k : Nat) : ∀ l : List Bool, l.length = 5 * k →
    (chunks5 l).flatten = l := by
  induction k with
  | zero =>
    intro l hl
    have : l = [] := List.eq_nil_of_length_eq_zero (by omega)
    subst this
    simp [chunks5_nil, List.flatten]
  | succ k ih =>
    intro l hl
    have h5 : (l.take 5).length = 5 := by
      rw [List.length_take]
      omega
    have hsplit : l = l.take 5 ++ l.drop 5 := (List.take_append_drop 5 l).symm
    rw [hsplit, chunks5_append_five _ _ h5, List.flatten_cons,
        ih (l.drop 5) (by rw [List.length_drop]; omega)]

theorem chunks5_mem_length (k : Nat) : ∀ l c, l.length = 5 * k →
    c ∈ chunks5 l → c.length = 5 := by
  induction k with
  | zero =>
    intro l c hl hc
    have : l = [] := List.eq_nil_of_length_eq_zero (by omega)
    subst this
    simp [chunks5_nil] at hc
  | succ k ih =>
    intro l c hl hc
    have h5 : (l.take 5).length = 5 := by
      rw [List.length_take]
      omega
    have hsplit : l = l.take 5 ++ l.drop 5 := (List.take_append_drop 5 l).symm
    rw [hsplit, chunks5_append_five _ _ h5] at hc
    rcases List.mem_cons.mp hc with h | h
    · rw [h]; exact h5
    · exact ih (l.drop 5) c (by rw [List.length_drop]; omega) h

/-! ## The Base32 alphabet and the two codecs

`src/totp.ts` carries a string-of-bits codec pair
(`bytesToBase32` / `base32ToBytes`); the engine module (`web-totp.ts`)
carries the accumulator-based decoder `toUint8Array`. -/

def base32Chars : List Char := "ABCDEFGHIJKLMNOPQRSTUVWXYZ234567".toList

/-- `base32Chars.indexOf(char.toUpperCase())` from `base32ToBytes`;
`none` models the `value === -1` branch that throws `TOTPError`. -/
def b32Index (c : Char) : Option Nat :=
  let i := base32Chars.indexOf c.toUpper
  if i < 32 then some i else none

/-- The left-to-right `reduce` of `base32ToBytes`, stopping at the first
character outside the alphabet. -/
def b32Values : List Char → Option (List Nat)
  | [] => some []
  | c :: cs =>
    match b32Index c, b32Values cs with
    | some v, some vs => some (v :: vs)
    | _, _ => none

/-- `base32ToBytes` of `src/totp.ts`: every symbol contributes 5 bits
(`toString(2).padStart(5, "0")`), and the bit string is cut into bytes,
a trailing partial byte included (`Math.ceil`).  `.error` models the
thrown `TOTPError('Invalid base32 character', INVALID_SECRET)`. -/
def base32ToBytes (s : List Char) : Except String (List Nat) :=
  match b32Values s with
  | none => .error "Invalid base32 character"
  | some vals =>
    let bits := vals.flatMap (natToBits 5)
    .ok ((chunks8 bits).map bitsToNat)

/-- `bytesToBase32` of `src/totp.ts`: every byte contributes 8 bits
(`toString(2).padStart(8, "0")`), and each full 5-bit slice selects one
alphabet symbol (`base32Chars[parseInt(chunk, 2)]`). -/
def bytesToBase32 (bytes : List Nat) : List Char :=
  let bits := bytes.flatMap (natToBits 8)
  (chunks5 bits).map (fun c => base32Chars.getD (bitsToNat c) 'A')

/-- The character class kept by `str.replace(/[^A-Z2-7]/gi, "")`. -/
def keptB32 (c : Char) : Bool := base32Chars.contains c.toUpper

/-- `str.replace(/[^A-Z2-7]/gi, "").toUpperCase()` from `toUint8Array`. -/
def clean (s : List Char) : List Char :=
  (s.filter keptB32).map Char.toUpper

/-- The bit-accumulator loop of `toUint8Array` (`web-totp.ts`): shift 5
bits in (`value = (value << 5) | idx`, a 32-bit operation), and emit
`(value >>> (bits - 8)) & 0xff` whenever 8 bits have accumulated. -/
def toUint8ArrayGo : List Nat → Nat → Nat → List Nat
  | [], _, _ => []
  | v :: rest, bits, value =>
    let value2 := (value * 32 + v) % 2 ^ 32
    let bits2 := bits + 5
    if 8 ≤ bits2 then
      (value2 / 2 ^ (bits2 - 8)) % 256 :: toUint8ArrayGo rest (bits2 - 8) value2
    else
      toUint8ArrayGo rest bits2 value2

/-- `toUint8Array` of `web-totp.ts`: clean the input, then run the
accumulator over the 5-bit value of each kept symbol.  The function is
total: a cleaned-empty input yields the empty byte list. -/
def toUint8Array (s : List Char) : List Nat :=
  toUint8ArrayGo ((clean s).map (fun c => base32Chars.indexOf c)) 0 0

/-! ## Round-trip lemmas for the `totp.ts` codec pair (claim C7) -/

theorem flatMap_natToBits_length (w : Nat) (l : List Nat) :
    (l.flatMap (natToBits w)).length = w * l.length := by
  induction l with
  | nil => simp
  | cons x l ih =>
    rw [List.flatMap_cons, List.length_append, natToBits_length, ih,
        List.length_cons]
    ring

theorem b32Index_getD : ∀ v < 32, b32Index (base32Chars.getD v 'A') = some v := by
  decide

theorem b32Values_map_getD (l : List (List Bool))
    (h : ∀ c ∈ l, bitsToNat c < 32) :
    b32Values (l.map (fun c => base32Chars.getD (bitsToNat c) 'A'))
      = some (l.map bitsToNat) := by
  induction l with
  | nil => rfl
  | cons c l ih =>
    rw [List.map_cons, List.map_cons, b32Values,
        b32Index_getD _ (h c (List.mem_cons_self c l)),
        ih (fun x hx => h x (List.mem_cons_of_mem c hx))]

theorem flatMap_chunks5_id (l : List (List Bool)) (h : ∀ c ∈ l, c.length = 5) :
    (l.map bitsToNat).flatMap (natToBits 5) = l.flatten := by
  induction l with
  | nil => simp
  | cons c l ih =>
    rw [List.map_cons, List.flatMap_cons, List.flatten_cons,
        ih (fun x hx => h x (List.mem_cons_of_mem c hx))]
    have hc : c.length = 5 := h c (List.mem_cons_self c l)
    rw [← hc, natToBits_bitsToNat]

theorem chunks8_flatMap_bytes (b : List Nat) (hb : ∀ x ∈ b, x < 256) :
    (chunks8 (b.flatMap (natToBits 8))).map bitsToNat = b := by
  induction b with
  | nil => simp [chunks8_nil]
  | cons x b ih =>
    rw [List.flatMap_cons, chunks8_append_eight _ _ (natToBits_length 8 x),
        List.map_cons, bitsToNat_natToBits,
        ih (fun y hy => hb y (List.mem_cons_of_mem x hy))]
    have hx : x % 2 ^ 8 = x := Nat.mod_eq_of_lt (hb x (List.mem_cons_self x b))
    rw [hx]

/-- C7: decoding the Base32 encoding of `b` reproduces `b` exactly when
`b` holds a whole number of 5-bit groups, in particular whenever its
length in bytes is a multiple of 5. -/
theorem C7_base32_roundtrip (b : List Nat) (h5 : 5 ∣ b.length)
    (hb : ∀ x ∈ b, x < 256) :
    base32ToBytes (bytesToBase32 b) = .ok b := by
  obtain ⟨m, hm⟩ := h5
  have hbits : (b.flatMap (natToBits 8)).length = 5 * (8 * m) := by
    rw [flatMap_natToBits_length, hm]
    ring
  have hlt : ∀ c ∈ chunks5 (b.flatMap (natToBits 8)), bitsToNat c < 32 := by
    intro c hc
    have h1 := chunks5_mem_length (8 * m) _ c hbits hc
    have h2 := bitsToNat_lt c
    rw [h1] at h2
    exact h2
  simp only [bytesToBase32, base32ToBytes, b32Values_map_getD _ hlt]
  rw [flatMap_chunks5_id _ (chunks5_mem_length (8 * m) _ · hbits),
      chunks5_join (8 * m) _ hbits, chunks8_flatMap_bytes b hb]

/-- Witness for C7 at the 5-byte sequence `[1, 2, 3, 4, 5]`. -/
theorem C7_base32_roundtrip_witness :
    (5 ∣ ([1, 2, 3, 4, 5] : List Nat).length)
      ∧ (∀ x ∈ ([1, 2, 3, 4, 5] : List Nat), x < 256)
      ∧ base32ToBytes (bytesToBase32 [1, 2, 3, 4, 5]) = .ok [1, 2, 3, 4, 5] :=
  ⟨by decide, by decide, C7_base32_roundtrip [1, 2, 3, 4, 5] (by decide) (by decide)⟩

/-! ## Claim C6: decoding a cleaned-empty Base32 input -/

/-- C6 counterexample: for inputs whose cleaned form is empty — `"!1"`
(no character in `[A-Z2-7]`) and the empty string — `toUint8Array`
returns the empty byte sequence.  The function is total (`web-totp.ts`
contains no throw): no `InvalidSecretFormat` failure exists. -/
theorem C6_counterexample_empty_decode :
    toUint8Array ['!', '1'] = [] ∧ toUint8Array [] = [] := by decide

/-- C6 (amended): for every input string whose cleaned form (after
removing characters outside `[A-Z2-7]`, case-insensitively) is empty,
`toUint8Array` returns the empty byte sequence without error. -/
theorem C6_clean_empty_decodes_to_nil (s : List Char) (h : clean s = []) :
    toUint8Array s = [] := by
  unfold toUint8Array
  rw [h]
  rfl

/-- Witness for the amended C6 at the input `"!1"`. -/
theorem C6_clean_empty_decodes_to_nil_witness :
    clean ['!', '1'] = [] ∧ toUint8Array ['!', '1'] = [] :=
  ⟨by decide, C6_clean_empty_decodes_to_nil ['!', '1'] (by decide)⟩

/-! ## Claim C4: the counter encoder -/

/-- `intToBytes` of `web-totp.ts`: an 8-byte `ArrayBuffer` written with
`view.setUint32(4, num, false)` — the value is coerced by `ToUint32`
(mod `2^32`) and stored big-endian at offset 4; bytes 0–3 stay zero. -/
def intToBytes (num : Nat) : List Nat :=
  let m := num % 2 ^ 32
  [0, 0, 0, 0, m / 2 ^ 24 % 256, m / 2 ^ 16 % 256, m / 2 ^ 8 % 256, m % 256]

/-- The same encoder on an integer-valued JavaScript number: `ToUint32`
maps a negative integer to its representative mod `2^32`. -/
def intToBytesI (num : Int) : List Nat := intToBytes (num % (2 ^ 32 : Int)).toNat

/-- Spec-side definition, following the claim's words: the 8-byte
big-endian encoding of a 64-bit counter, high-order byte first,
zero-padded. -/
def specBE8 (n : Nat) : List Nat :=
  [n / 2 ^ 56 % 256, n / 2 ^ 48 % 256, n / 2 ^ 40 % 256, n / 2 ^ 32 % 256,
   n / 2 ^ 24 % 256, n / 2 ^ 16 % 256, n / 2 ^ 8 % 256, n % 256]

/-- C4 counterexample: at counter `2^32` the encoder emits all zeros —
the big-endian encoding of `0`, not of `2^32` — because `setUint32`
truncates the counter mod `2^32`.  The claim fails on the full
unsigned 64-bit range. -/
theorem C4_counterexample_counter_truncated :
    intToBytes (2 ^ 32) ≠ specBE8 (2 ^ 32) ∧ intToBytes (2 ^ 32) = intToBytes 0 := by
  constructor
  · decide
  · rfl

/-- C4 (amended): for every counter below `2^32` the counter message is
the 8-byte big-endian encoding of the counter, high-order byte first,
zero-padded, with no error conditions (the encoder is total); larger
counters are encoded mod `2^32`. -/
theorem C4_counter_big_endian_low (n : Nat) (h : n < 2 ^ 32) :
    intToBytes n = specBE8 n := by
  have h2 : n < 4294967296 := by
    norm_num at h
    exact h
  simp only [intToBytes, specBE8, List.cons.injEq, and_true]
  norm_num
  omega

/-- Witness for the amended C4 at the largest 32-bit counter. -/
theorem C4_counter_big_endian_low_witness :
    (4294967295 : Nat) < 2 ^ 32 ∧ intToBytes 4294967295 = specBE8 4294967295 :=
  ⟨by norm_num, C4_counter_big_endian_low 4294967295 (by norm_num)⟩

/-! ## Decimal rendering and padding

`(code % 10 ** digits).toString().padStart(digits, "0")`. -/

/-- Decimal digits of `n`, most significant first, accumulated from the
right; the fuel argument only bounds the recursion and `n + 1` fuel
always suffices. -/
def decToStringAux : Nat → Nat → List Char → List Char
  | 0, _, acc => acc
  | fuel + 1, n, acc =>
    let d := Char.ofNat (48 + n % 10)
    if n < 10 then d :: acc else decToStringAux fuel (n / 10) (d :: acc)

/-- `n.toString()` (base 10) on a non-negative integer-valued number. -/
def toDecimalString (n : Nat) : List Char := decToStringAux (n + 1) n []

/-- `s.padStart(w, "0")`. -/
def padStartZeros (w : Nat) (s : List Char) : List Char :=
  List.replicate (w - s.length) '0' ++ s

theorem decToStringAux_length (d : Nat) (hd : 1 ≤ d) :
    ∀ fuel n acc, n < 10 ^ d →
      (decToStringAux fuel n acc).length ≤ d + acc.length := by
  induction d using Nat.strong_induction_on with
  | _ d ih =>
    intro fuel n acc hn
    cases fuel with
    | zero =>
      show acc.length ≤ d + acc.length
      omega
    | succ fuel =>
      rw [decToStringAux]
      by_cases h10 : n < 10
      · simp only [if_pos h10, List.length_cons]
        omega
      · rw [if_neg h10]
        have hd2 : 2 ≤ d := by
          by_contra hc
          have : d = 1 := by omega
          subst this
          simp at hn
          omega
        have hrec := ih (d - 1) (by omega) (by omega) fuel (n / 10)
          (Char.ofNat (48 + n % 10) :: acc)
          (by
            have : n < 10 ^ d := hn
            have hpow : 10 ^ d = 10 ^ (d - 1) * 10 := by
              rw [← pow_succ]
              congr 1
              omega
            rw [Nat.div_lt_iff_lt_mul (by omega)]
            omega)
        simp only [List.length_cons] at hrec
        omega

theorem toDecimalString_length (d n : Nat) (hd : 1 ≤ d) (hn : n < 10 ^ d) :
    (toDecimalString n).length ≤ d := by
  have h := decToStringAux_length d hd (n + 1) n [] hn
  simpa [toDecimalString] using h

theorem padStartZeros_length (w : Nat) (s : List Char) (h : s.length ≤ w) :
    (padStartZeros w s).length = w := by
  simp [padStartZeros]
  omega

/-! ## The HOTP generator (`generateHOTP` in `web-totp.ts`)

The HMAC primitive (`crypto.subtle.importKey` + `crypto.subtle.sign`
for the configured algorithm) is an external collaborator, modelled as
a function `hmac : key bytes → message bytes → digest bytes`. -/

def defaultCharSet : List Char := "0123456789".toList

/-- The standard branch of `generateHOTP`: RFC 4226 dynamic truncation.
`& 0x0f`, `& 0x7f` and `& 0xff` are written `% 16`, `% 128`, `% 256`;
the `|` combinations act on disjoint masked bit ranges, so they equal
addition. -/
def dynamicTruncate (hash : List Nat) (digits : Nat) : List Char :=
  let offset := hash.getD (hash.length - 1) 0 % 16
  let code :=
    hash.getD offset 0 % 128 * 2 ^ 24 +
    hash.getD (offset + 1) 0 % 256 * 2 ^ 16 +
    hash.getD (offset + 2) 0 % 256 * 2 ^ 8 +
    hash.getD (offset + 3) 0 % 256
  padStartZeros digits (toDecimalString (code % 10 ^ digits))

/-- One symbol of the custom-alphabet branch of `generateHOTP`: four
digest bytes at rotating indices combined big-endian (`<< 24 | << 16 |
<< 8 |`, made unsigned by `>>> 0`, which on byte values below 256 is
this sum), reduced modulo the alphabet length. -/
def customChar (hash : List Nat) (charSet : List Char) (i : Nat) : Char :=
  let value :=
    hash.getD (i * 4 % hash.length) 0 % 256 * 2 ^ 24 +
    hash.getD ((i * 4 + 1) % hash.length) 0 % 256 * 2 ^ 16 +
    hash.getD ((i * 4 + 2) % hash.length) 0 % 256 * 2 ^ 8 +
    hash.getD ((i * 4 + 3) % hash.length) 0 % 256
  charSet.getD (value % charSet.length) 'A'

/-- `generateHOTP` of `web-totp.ts`: decode the secret, HMAC the
encoded counter, then either the custom-alphabet derivation (when
`charSet !== '0123456789'`) or RFC 4226 dynamic truncation. -/
def generateHOTP (hmac : List Nat → List Nat → List Nat) (secret : List Char)
    (counter : Int) (digits : Nat) (charSet : List Char) : List Char :=
  let keyData := toUint8Array secret
  let hash := hmac keyData (intToBytesI counter)
  if charSet ≠ defaultCharSet then
    (List.range digits).map (customChar hash charSet)
  else
    dynamicTruncate hash digits

theorem getD_mod_256 (hash : List Nat) (hb : ∀ x ∈ hash, x < 256) (i : Nat) :
    hash.getD i 0 % 256 = hash.getD i 0 := by
  by_cases hi : i < hash.length
  · refine Nat.mod_eq_of_lt (hb _ ?_)
    rw [List.getD_eq_getElem _ _ hi]
    exact List.getElem_mem hi
  · rw [List.getD_eq_default _ _ (by omega)]

theorem dynamicTruncate_length (hash : List Nat) (digits : Nat)
    (hd : 1 ≤ digits) : (dynamicTruncate hash digits).length = digits := by
  unfold dynamicTruncate
  exact padStartZeros_length _ _
    (toDecimalString_length _ _ hd (Nat.mod_lt _ (Nat.pos_pow_of_pos _ (by omega))))

theorem generateHOTP_length (hmac : List Nat → List Nat → List Nat)
    (secret : List Char) (counter : Int) (digits : Nat) (charSet : List Char)
    (hd : 1 ≤ digits) :
    (generateHOTP hmac secret counter digits charSet).length = digits := by
  unfold generateHOTP
  split
  · simp
  · exact dynamicTruncate_length _ _ hd

/-- Spec-side definition following the claim's words: RFC 4226 dynamic
truncation — `offset = digest[lastByte] & 0x0F`; the 4 digest bytes
starting at `offset` combined big-endian with the top bit of the first
byte masked by `& 0x7F`; the token is `binaryCode mod 10^digits`
rendered in decimal and left-zero-padded to `digits` characters. -/
def specRFC4226Token (hash : List Nat) (digits : Nat) : List Char :=
  let offset := hash.getD (hash.length - 1) 0 % 16
  let binaryCode :=
    hash.getD offset 0 % 128 * 2 ^ 24 +
    hash.getD (offset + 1) 0 * 2 ^ 16 +
    hash.getD (offset + 2) 0 * 2 ^ 8 +
    hash.getD (offset + 3) 0
  padStartZeros digits (toDecimalString (binaryCode % 10 ^ digits))

/-- C2: for every secret, counter, digest function and digit count, with
the default decimal alphabet the generated token equals the RFC 4226
dynamic truncation of the HMAC digest, and has exactly `digits`
characters. -/
theorem C2_default_token_rfc4226 (hmac : List Nat → List Nat → List Nat)
    (secret : List Char) (counter : Int) (digits : Nat) (hd : 1 ≤ digits)
    (hb : ∀ x ∈ hmac (toUint8Array secret) (intToBytesI counter), x < 256) :
    generateHOTP hmac secret counter digits defaultCharSet
        = specRFC4226Token (hmac (toUint8Array secret) (intToBytesI counter)) digits
      ∧ (generateHOTP hmac secret counter digits defaultCharSet).length = digits := by
  refine ⟨?_, generateHOTP_length _ _ _ _ _ hd⟩
  unfold generateHOTP
  rw [if_neg (by simp)]
  simp only [dynamicTruncate, specRFC4226Token, getD_mod_256 _ hb]

/-- Witness for C2 with the digest `[0, 1, ..., 19]` (a SHA-1-sized
digest), secret `"A"`, counter 0 and 6 digits. -/
theorem C2_default_token_rfc4226_witness :
    1 ≤ 6
      ∧ (∀ x ∈ (fun _ _ => List.range 20) (toUint8Array ['A']) (intToBytesI 0), x < 256)
      ∧ (generateHOTP (fun _ _ => List.range 20) ['A'] 0 6 defaultCharSet
            = specRFC4226Token
                ((fun _ _ => List.range 20) (toUint8Array ['A']) (intToBytesI 0)) 6
          ∧ (generateHOTP (fun _ _ => List.range 20) ['A'] 0 6 defaultCharSet).length
              = 6) :=
  ⟨by decide, by decide,
    C2_default_token_rfc4226 (fun _ _ => List.range 20) ['A'] 0 6 (by decide) (by decide)⟩

/-- Spec-side definition following the claim's words: for output
position `i`, the unsigned 32-bit big-endian integer formed from the
digest bytes at indices `(i*4 + j) mod digestLength`, `j = 0..3`. -/
def specCustomValue (hash : List Nat) (i : Nat) : Nat :=
  hash.getD (i * 4 % hash.length) 0 * 2 ^ 24 +
  hash.getD ((i * 4 + 1) % hash.length) 0 * 2 ^ 16 +
  hash.getD ((i * 4 + 2) % hash.length) 0 * 2 ^ 8 +
  hash.getD ((i * 4 + 3) % hash.length) 0

/-- C5: with a non-default character set, the token has exactly `digits`
symbols; symbol `i` is `charSet[v_i mod charSet.length]` with `v_i` the
unsigned 32-bit big-endian integer from the digest bytes at the rotating
wrapped indices; and the wrapped indices are always in bounds. -/
theorem C5_custom_charset_token (hmac : List Nat → List Nat → List Nat)
    (secret : List Char) (counter : Int) (digits : Nat) (charSet : List Char)
    (hne : charSet ≠ defaultCharSet) (hcs : 0 < charSet.length)
    (hb : ∀ x ∈ hmac (toUint8Array secret) (intToBytesI counter), x < 256)
    (hh : 0 < (hmac (toUint8Array secret) (intToBytesI counter)).length) :
    (generateHOTP hmac secret counter digits charSet).length = digits
      ∧ (∀ i, i < digits →
          (generateHOTP hmac secret counter digits charSet)[i]?
            = some (charSet.getD
                (specCustomValue (hmac (toUint8Array secret) (intToBytesI counter)) i
                  % charSet.length) 'A'))
      ∧ (∀ i j, i < digits → j < 4 →
          (i * 4 + j) % (hmac (toUint8Array secret) (intToBytesI counter)).length
            < (hmac (toUint8Array secret) (intToBytesI counter)).length) := by
  refine ⟨?_, ?_, ?_⟩
  · unfold generateHOTP
    rw [if_pos hne]
    simp
  · intro i hi
    unfold generateHOTP
    rw [if_pos hne]
    rw [List.getElem?_map, List.getElem?_range hi]
    simp only [Option.map_some', customChar, specCustomValue, getD_mod_256 _ hb]
  · intro i j _ _
    exact Nat.mod_lt _ hh

/-- Witness for C5 with the two-symbol alphabet `"XY"`, 3 digits, the
digest `[0, 1, ..., 19]`, secret `"A"` and counter 0. -/
theorem C5_custom_charset_token_witness :
    ['X', 'Y'] ≠ defaultCharSet
      ∧ 0 < (['X', 'Y'] : List Char).length
      ∧ (∀ x ∈ (fun _ _ => List.range 20) (toUint8Array ['A']) (intToBytesI 0), x < 256)
      ∧ 0 < ((fun _ _ => List.range 20) (toUint8Array ['A']) (intToBytesI 0)).length
      ∧ ((generateHOTP (fun _ _ => List.range 20) ['A'] 0 3 ['X', 'Y']).length = 3
          ∧ (∀ i, i < 3 →
              (generateHOTP (fun _ _ => List.range 20) ['A'] 0 3 ['X', 'Y'])[i]?
                = some ((['X', 'Y'] : List Char).getD
                    (specCustomValue
                        ((fun _ _ => List.range 20) (toUint8Array ['A']) (intToBytesI 0)) i
                      % (['X', 'Y'] : List Char).length) 'A'))
          ∧ (∀ i j, i < 3 → j < 4 →
              (i * 4 + j)
                  % ((fun _ _ => List.range 20) (toUint8Array ['A']) (intToBytesI 0)).length
                < ((fun _ _ => List.range 20) (toUint8Array ['A']) (intToBytesI 0)).length)) :=
  ⟨by decide, by decide, by decide, by decide,
    C5_custom_charset_token (fun _ _ => List.range 20) ['A'] 0 3 ['X', 'Y']
      (by decide) (by decide) (by decide) (by decide)⟩

/-! ## The TOTP engine (`generateTOTP` / `verifyTOTP` in `web-totp.ts`)

`generateTOTP` fills options with `||` (falsy defaulting: `0`, `''` and
a missing field all select the default), so the option fields use `[]`
and `0` to model both an absent and a falsy value.  The wall clock
(`Date.now()`) is an explicit millisecond parameter; the random
fallback secret (`generateRandomSecret`) is an explicit parameter. -/

structure TOTPOptions where
  secret : List Char := []
  digits : Nat := 0
  period : Nat := 0
  window : Int := 0
  charSet : List Char := []

structure TOTPResult where
  token : List Char
  secret : List Char
  remainingSeconds : Nat

/-- `generateTOTP` of `web-totp.ts`: default the options, derive
`counter = floor(floor(now/1000) / period) + window`, and delegate to
`generateHOTP`.  (`options.window || 0` is the identity on an explicit
window value, `0` included.) -/
def generateTOTP (hmac : List Nat → List Nat → List Nat) (randSecret : List Char)
    (nowMs : Nat) (options : TOTPOptions) : TOTPResult :=
  let secret := if options.secret = [] then randSecret else options.secret
  let window := options.window
  let digits := if options.digits = 0 then 6 else options.digits
  let charSet := if options.charSet = [] then defaultCharSet else options.charSet
  let period := if options.period = 0 then 30 else options.period
  let currentTime := nowMs / 1000
  let counter : Int := (currentTime / period : Nat) + window
  let token := generateHOTP hmac secret counter digits charSet
  let remainingSeconds := period - currentTime % period
  ⟨token, secret, remainingSeconds⟩

/-- `verifyTOTP` of `web-totp.ts`: compute
`current = floor(now / 1000 / period)` and compare the candidate against
the token generated at every counter from `current - window` to
`current + window`; return `true` on the first match, else `false`.
The function performs no format check and never throws; its
destructured option defaults (`window = 1`, etc.) are the caller's
concern, so all options are explicit parameters here. -/
def verifyTOTP (hmac : List Nat → List Nat → List Nat) (nowMs : Nat)
    (token secret : List Char) (window : Nat) (digits : Nat)
    (charSet : List Char) (period : Nat) : Bool :=
  let current : Int := (nowMs / 1000 / period : Nat)
  (List.range (2 * window + 1)).any
    (fun j => generateHOTP hmac secret (current - window + j) digits charSet == token)

/-- C1: a token generated with window offset `k` verifies, with the same
configuration and secret, within the same wall-clock period, under any
verification window of at least `|k|`. -/
theorem C1_window_inclusion (hmac : List Nat → List Nat → List Nat)
    (s : List Char) (hs : s ≠ []) (d p : Nat) (hd : d ≠ 0) (hp : p ≠ 0)
    (cs : List Char) (hcs : cs ≠ []) (k : Int) (w : Nat) (hk : k.natAbs ≤ w)
    (randSecret : List Char) (tg tv : Nat)
    (hsame : tg / 1000 / p = tv / 1000 / p) :
    verifyTOTP hmac tv (generateTOTP hmac randSecret tg ⟨s, d, p, k, cs⟩).token
      s w d cs p = true := by
  unfold generateTOTP verifyTOTP
  simp only [if_neg hs, if_neg hd, if_neg hp, if_neg hcs]
  rw [List.any_eq_true]
  refine ⟨(k + w).toNat, List.mem_range.mpr (by omega), ?_⟩
  have hc : ((tv / 1000 / p : Nat) : Int) - w + ((k + w).toNat : Int)
      = ((tg / 1000 / p : Nat) : Int) + k := by
    rw [hsame]
    omega
  rw [hc]
  exact beq_self_eq_true _

/-- Witness for C1: offset `k = 1`, window `1`, both calls at time 0. -/
theorem C1_window_inclusion_witness :
    (['A'] : List Char) ≠ [] ∧ (6 : Nat) ≠ 0 ∧ (30 : Nat) ≠ 0
      ∧ defaultCharSet ≠ [] ∧ (1 : Int).natAbs ≤ 1
      ∧ (0 : Nat) / 1000 / 30 = (0 : Nat) / 1000 / 30
      ∧ verifyTOTP (fun _ _ => List.range 20) 0
          (generateTOTP (fun _ _ => List.range 20) [] 0
            ⟨['A'], 6, 30, 1, defaultCharSet⟩).token
          ['A'] 1 6 defaultCharSet 30 = true :=
  ⟨by decide, by decide, by decide, by decide, by decide, rfl,
    C1_window_inclusion (fun _ _ => List.range 20) ['A'] (by decide) 6 30
      (by decide) (by decide) defaultCharSet (by decide) 1 1 (by decide) [] 0 0 rfl⟩

/-! ## Claim C3: token format handling in `verifyTOTP` -/

/-- C3 counterexample: `verifyTOTP` in `web-totp.ts` contains no format
check and no throw at all — its result type is a plain boolean.  For the
one-character candidate `"1"` against a 6-digit configuration it returns
`false` silently instead of rejecting with an `InvalidToken` error
before any comparison. -/
theorem C3_counterexample_silent_false :
    verifyTOTP (fun _ _ => List.replicate 20 0) 0 ['1'] ['A'] 1 6
      defaultCharSet 30 = false := by decide

/-- C3 (amended): the charSet-configurable `verifyTOTP` (`web-totp.ts`)
performs no format check: a candidate whose length differs from the
configured digit count is never equal to any generated token, so
verification returns `false` silently, without any error.  (The
`InvalidToken`-throwing guard exists only in the legacy decimal-only
`src/totp.ts` variant.) -/
theorem C3_wrong_length_silent_false (hmac : List Nat → List Nat → List Nat)
    (nowMs : Nat) (token secret : List Char) (w d : Nat) (cs : List Char)
    (p : Nat) (hd : 1 ≤ d) (hlen : token.length ≠ d) :
    verifyTOTP hmac nowMs token secret w d cs p = false := by
  unfold verifyTOTP
  rw [List.any_eq_false]
  intro j _
  simp only [beq_iff_eq]
  intro he
  exact hlen (he ▸ generateHOTP_length hmac secret _ d cs hd)

/-- Witness for the amended C3 at the candidate `"1"`. -/
theorem C3_wrong_length_silent_false_witness :
    1 ≤ 6 ∧ (['1'] : List Char).length ≠ 6
      ∧ verifyTOTP (fun _ _ => List.replicate 20 0) 0 ['1'] ['A'] 1 6
          defaultCharSet 30 = false :=
  ⟨by decide, by decide,
    C3_wrong_length_silent_false (fun _ _ => List.replicate 20 0) 0 ['1'] ['A']
      1 6 defaultCharSet 30 (by decide) (by decide)⟩

/-! ## Claim C9: configuration validation

`TOTPUtils.validateConfiguration` lives in `totp-utils.ts`; it returns a
result object and is not called by `generateTOTP` or `verifyTOTP`.  The
JavaScript truthiness guards (`options.digits && ...`) skip the check
for an absent field and for a zero/empty value alike, modelled with
`Option` fields plus the non-zero / non-empty conjunct. -/

structure ValidateOptions where
  algorithm : Option String := none
  digits : Option Nat := none
  period : Option Nat := none
  charSet : Option (List Char) := none

def validAlgorithms : List String := ["SHA-1", "SHA-256", "SHA-512"]

/-- `TOTPUtils.validateConfiguration`: collect error strings, and report
`isValid = (errors.length === 0)`. -/
def validateConfiguration (o : ValidateOptions) : Bool × List String :=
  let e1 : List String :=
    match o.algorithm with
    | some a =>
      if a ≠ "" ∧ a ∉ validAlgorithms then
        ["Algorithm must be one of: SHA-1, SHA-256, SHA-512"]
      else []
    | none => []
  let e2 : List String :=
    match o.digits with
    | some d =>
      if d ≠ 0 ∧ (d < 4 ∨ 8 < d) then ["Digits must be between 4 and 8"] else []
    | none => []
  let e3 : List String :=
    match o.period with
    | some p =>
      if p ≠ 0 ∧ (p < 15 ∨ 60 < p) then
        ["Period must be between 15 and 60 seconds"]
      else []
    | none => []
  let e4 : List String :=
    match o.charSet with
    | some cs =>
      if cs ≠ [] ∧ cs.length < 10 then
        ["Character set must have at least 10 characters"]
      else []
    | none => []
  let errors := e1 ++ e2 ++ e3 ++ e4
  (errors.isEmpty, errors)

/-- C9 counterexample: with `digits = 3` (outside `[4,8]`),
`generateTOTP` raises no `InvalidConfiguration` error — the engine has
no validation and no throw — and silently produces the 3-character
token `"000"` (for an all-zero digest).  The claim fails on the code. -/
theorem C9_counterexample_no_validation :
    (generateTOTP (fun _ _ => List.replicate 20 0) [] 0
      ⟨['A'], 3, 30, 0, []⟩).token = ['0', '0', '0'] := by decide

/-- C9 (amended): `generateTOTP` performs no configuration validation:
for any non-zero digit count outside `[4,8]` it silently produces a
token of exactly that length.  Configuration checking exists only as
the separate utility `TOTPUtils.validateConfiguration`, which reports
such a digit count as invalid. -/
theorem C9_validation_is_separate (hmac : List Nat → List Nat → List Nat)
    (randSecret : List Char) (nowMs : Nat) (s : List Char) (hs : s ≠ [])
    (d : Nat) (hd : d ≠ 0) (hrange : d < 4 ∨ 8 < d) :
    (generateTOTP hmac randSecret nowMs ⟨s, d, 30, 0, []⟩).token.length = d
      ∧ (validateConfiguration ⟨none, some d, none, none⟩).1 = false := by
  constructor
  · unfold generateTOTP
    simp only [if_neg hs, if_neg hd]
    exact generateHOTP_length _ _ _ _ _ (by omega)
  · simp [validateConfiguration, if_pos (And.intro hd hrange)]

/-- Witness for the amended C9 at `digits = 3`. -/
theorem C9_validation_is_separate_witness :
    (['A'] : List Char) ≠ [] ∧ (3 : Nat) ≠ 0 ∧ ((3 : Nat) < 4 ∨ 8 < (3 : Nat))
      ∧ ((generateTOTP (fun _ _ => List.replicate 20 0) [] 0
            ⟨['A'], 3, 30, 0, []⟩).token.length = 3
          ∧ (validateConfiguration ⟨none, some 3, none, none⟩).1 = false) :=
  ⟨by decide, by decide, by decide,
    C9_validation_is_separate (fun _ _ => List.replicate 20 0) [] 0 ['A']
      (by decide) 3 (by decide) (by decide)⟩

/-! ## The rate limiter (`RateLimiter` in `web-totp.ts`)

The mutable `Map<string, {count, timestamp}>` is modelled as a function
from keys to optional entries, threaded explicitly through each method;
`Date.now()` is an explicit parameter.  The JavaScript comparison
`now - attempt.timestamp > windowMs` agrees with its truncated-`Nat`
counterpart: for `now < timestamp` both sides take the not-elapsed
branch. -/

structure RateLimiter where
  maxAttempts : Nat := 5
  windowMs : Nat := 60000

structure RLEntry where
  count : Nat
  timestamp : Nat

def RLMap : Type := String → Option RLEntry

/-- `this.attempts.set(key, e)`. -/
def RLMap.update (s : RLMap) (k : String) (e : RLEntry) : RLMap :=
  fun q => if q = k then some e else s q

/-- `isRateLimited`: lazily create the entry with count 1; reset to
count 1 when the window elapsed; report limited (without incrementing)
at or above `maxAttempts`; otherwise increment.  Returns the boolean
result together with the updated map. -/
def RateLimiter.isRateLimited (rl : RateLimiter) (now : Nat) (key : String)
    (s : RLMap) : Bool × RLMap :=
  match s key with
  | none => (false, s.update key ⟨1, now⟩)
  | some a =>
    if rl.windowMs < now - a.timestamp then
      (false, s.update key ⟨1, now⟩)
    else if rl.maxAttempts ≤ a.count then
      (true, s)
    else
      (false, s.update key ⟨a.count + 1, a.timestamp⟩)

/-- `reset`: store `{count: 0, timestamp: now}`. -/
def RateLimiter.reset (now : Nat) (key : String) (s : RLMap) : RLMap :=
  s.update key ⟨0, now⟩

/-- `getRemainingAttempts`: `maxAttempts` without an entry or after the
window elapsed, else `Math.max(0, maxAttempts - count)` (truncated
subtraction).  The map is returned unchanged — the method only reads. -/
def RateLimiter.getRemainingAttempts (rl : RateLimiter) (now : Nat)
    (key : String) (s : RLMap) : Nat × RLMap :=
  match s key with
  | none => (rl.maxAttempts, s)
  | some a =>
    if rl.windowMs < now - a.timestamp then (rl.maxAttempts, s)
    else (rl.maxAttempts - a.count, s)

/-- `getTimeUntilReset`: `0` without an entry or after the window
elapsed, else `windowMs - (now - timestamp)`.  The map is returned
unchanged — the method only reads. -/
def RateLimiter.getTimeUntilReset (rl : RateLimiter) (now : Nat)
    (key : String) (s : RLMap) : Nat × RLMap :=
  match s key with
  | none => (0, s)
  | some a =>
    if rl.windowMs < now - a.timestamp then (0, s)
    else (rl.windowMs - (now - a.timestamp), s)

theorem RLMap.update_self (s : RLMap) (k : String) (e : RLEntry) :
    s.update k e k = some e := by
  simp [RLMap.update]

/-- C8: with `maxAttempts = 3`, starting from a state with no entry for
the key and with all calls inside one window duration, three
`isRateLimited` calls return not-limited, the fourth returns limited,
and after `reset` the next call returns not-limited again. -/
theorem C8_rate_limiter_sequence (W : Nat) (s0 : RLMap) (key : String)
    (t1 t2 t3 t4 tr t5 : Nat) (h0 : s0 key = none)
    (h12 : t1 ≤ t2) (h23 : t2 ≤ t3) (h34 : t3 ≤ t4) (h4r : t4 ≤ tr)
    (hr5 : tr ≤ t5) (hW : t5 - t1 ≤ W) :
    (RateLimiter.isRateLimited ⟨3, W⟩ t1 key s0).1 = false
      ∧ (RateLimiter.isRateLimited ⟨3, W⟩ t2 key
          (RateLimiter.isRateLimited ⟨3, W⟩ t1 key s0).2).1 = false
      ∧ (RateLimiter.isRateLimited ⟨3, W⟩ t3 key
          (RateLimiter.isRateLimited ⟨3, W⟩ t2 key
            (RateLimiter.isRateLimited ⟨3, W⟩ t1 key s0).2).2).1 = false
      ∧ (RateLimiter.isRateLimited ⟨3, W⟩ t4 key
          (RateLimiter.isRateLimited ⟨3, W⟩ t3 key
            (RateLimiter.isRateLimited ⟨3, W⟩ t2 key
              (RateLimiter.isRateLimited ⟨3, W⟩ t1 key s0).2).2).2).1 = true
      ∧ (RateLimiter.isRateLimited ⟨3, W⟩ t5 key
          (RateLimiter.reset tr key
            (RateLimiter.isRateLimited ⟨3, W⟩ t4 key
              (RateLimiter.isRateLimited ⟨3, W⟩ t3 key
                (RateLimiter.isRateLimited ⟨3, W⟩ t2 key
                  (RateLimiter.isRateLimited ⟨3, W⟩ t1 key s0).2).2).2).2)).1
          = false := by
  have hn2 : ¬ W < t2 - t1 := by omega
  have hn3 : ¬ W < t3 - t1 := by omega
  have hn4 : ¬ W < t4 - t1 := by omega
  have hn5 : ¬ W < t5 - tr := by omega
  have e1 : RateLimiter.isRateLimited ⟨3, W⟩ t1 key s0
      = (false, s0.update key ⟨1, t1⟩) := by
    simp [RateLimiter.isRateLimited, h0]
  have e2 : RateLimiter.isRateLimited ⟨3, W⟩ t2 key (s0.update key ⟨1, t1⟩)
      = (false, (s0.update key ⟨1, t1⟩).update key ⟨2, t1⟩) := by
    simp [RateLimiter.isRateLimited, RLMap.update_self, hn2]
  have e3 : RateLimiter.isRateLimited ⟨3, W⟩ t3 key
        ((s0.update key ⟨1, t1⟩).update key ⟨2, t1⟩)
      = (false, ((s0.update key ⟨1, t1⟩).update key ⟨2, t1⟩).update key ⟨3, t1⟩) := by
    simp [RateLimiter.isRateLimited, RLMap.update_self, hn3]
  have e4 : RateLimiter.isRateLimited ⟨3, W⟩ t4 key
        (((s0.update key ⟨1, t1⟩).update key ⟨2, t1⟩).update key ⟨3, t1⟩)
      = (true, ((s0.update key ⟨1, t1⟩).update key ⟨2, t1⟩).update key ⟨3, t1⟩) := by
    simp [RateLimiter.isRateLimited, RLMap.update_self, hn4]
  have e5 : RateLimiter.isRateLimited ⟨3, W⟩ t5 key
        ((((s0.update key ⟨1, t1⟩).update key ⟨2, t1⟩).update key
          ⟨3, t1⟩).update key ⟨0, tr⟩)
      = (false, (((((s0.update key ⟨1, t1⟩).update key ⟨2, t1⟩).update key
          ⟨3, t1⟩).update key ⟨0, tr⟩).update key ⟨1, tr⟩)) := by
    simp [RateLimiter.isRateLimited, RLMap.update_self, hn5]
  simp only [e1, e2, e3, e4, RateLimiter.reset, e5]
  exact ⟨trivial, trivial, trivial, trivial, trivial⟩

/-- Witness for C8 with `W = 100` and all six events at time 0 on the
empty starting map. -/
theorem C8_rate_limiter_sequence_witness :
    ((fun _ => none : RLMap) "k" = none)
      ∧ ((RateLimiter.isRateLimited ⟨3, 100⟩ 0 "k" (fun _ => none)).1 = false
          ∧ (RateLimiter.isRateLimited ⟨3, 100⟩ 0 "k"
              (RateLimiter.isRateLimited ⟨3, 100⟩ 0 "k" (fun _ => none)).2).1 = false
          ∧ (RateLimiter.isRateLimited ⟨3, 100⟩ 0 "k"
              (RateLimiter.isRateLimited ⟨3, 100⟩ 0 "k"
                (RateLimiter.isRateLimited ⟨3, 100⟩ 0 "k" (fun _ => none)).2).2).1
              = false
          ∧ (RateLimiter.isRateLimited ⟨3, 100⟩ 0 "k"
              (RateLimiter.isRateLimited ⟨3, 100⟩ 0 "k"
                (RateLimiter.isRateLimited ⟨3, 100⟩ 0 "k"
                  (RateLimiter.isRateLimited ⟨3, 100⟩ 0 "k"
                    (fun _ => none)).2).2).2).1 = true
          ∧ (RateLimiter.isRateLimited ⟨3, 100⟩ 0 "k"
              (RateLimiter.reset 0 "k"
                (RateLimiter.isRateLimited ⟨3, 100⟩ 0 "k"
                  (RateLimiter.isRateLimited ⟨3, 100⟩ 0 "k"
                    (RateLimiter.isRateLimited ⟨3, 100⟩ 0 "k"
                      (RateLimiter.isRateLimited ⟨3, 100⟩ 0 "k"
                        (fun _ => none)).2).2).2).2)).1 = false) :=
  ⟨rfl, C8_rate_limiter_sequence 100 (fun _ => none) "k" 0 0 0 0 0 0 rfl
    (by omega) (by omega) (by omega) (by omega) (by omega) (by omega)⟩

/-- C10: `getRemainingAttempts` and `getTimeUntilReset` are pure
observers — they return the attempts map unchanged, so any subsequent
`isRateLimited` call returns exactly what it would have returned had
the observer calls not happened. -/
theorem C10_observers_pure (rl : RateLimiter) (s : RLMap) (now : Nat)
    (key : String) :
    (rl.getRemainingAttempts now key s).2 = s
      ∧ (rl.getTimeUntilReset now key s).2 = s
      ∧ (∀ now2 key2,
          RateLimiter.isRateLimited rl now2 key2 (rl.getRemainingAttempts now key s).2
            = RateLimiter.isRateLimited rl now2 key2 s)
      ∧ (∀ now2 key2,
          RateLimiter.isRateLimited rl now2 key2 (rl.getTimeUntilReset now key s).2
            = RateLimiter.isRateLimited rl now2 key2 s) := by
  have h1 : (rl.getRemainingAttempts now key s).2 = s := by
    unfold RateLimiter.getRemainingAttempts
    cases s key
    · rfl
    · simp only []
      split <;> rfl
  have h2 : (rl.getTimeUntilReset now key s).2 = s := by
    unfold RateLimiter.getTimeUntilReset
    cases s key
    · rfl
    · simp only []
      split <;> rfl
  exact ⟨h1, h2, fun n2 k2 => by rw [h1], fun n2 k2 => by rw [h2]⟩
